import Mathlib

/-!
Verification of the splice-site derivation core of `scripts/process_gtf.py`
(function `generate_splice_sites`) against its design specification.

The embedding models a pandas `DataFrame` of GTF annotation records as a
`Table`: a list of column names together with a list of `GtfRow` records.
The pipeline is
  group rows by `transcript_id` (rows with an absent id are dropped, keys
  iterated in sorted order, as `DataFrame.groupby` does) →
  build one `Transcript` per group →
  collect the introns of every transcript into one flat junction list →
  sort by `(Chromosome, Start)` →
  drop exact duplicate rows keeping the first occurrence →
  project the `Start` and the `End` views.

The class `alphagenome.data.transcript.Transcript` (its constructor
`from_gtf_df` and its `introns` property) and the input validation are code
of this repository that is not available here, so they are modelled from the
specification; each such definition carries a doc comment saying so.

Chromosome names are compared lexicographically by code point, which is the
native string ordering the specification requires; the comparison is spelled
out on the character list of the string so that it evaluates by `decide`.
-/

/-- Row of the flat annotation table produced by ingestion.  Field names
follow the column names of the source (`Chromosome`, `Start`, `End`,
`Strand`, `Feature`, `gene_id`, `transcript_id`); `transcript_id` is
`Option`-valued because gene-level rows carry no transcript id. -/
structure GtfRow where
  Chromosome : String
  Start : Int
  End : Int
  Strand : String
  Feature : String
  gene_id : String
  transcript_id : Option String
deriving DecidableEq, Repr

/-- Shallow model of a pandas `DataFrame` holding annotation records: the
list of column names actually present (so that a missing required column is
representable) and the row data. -/
structure Table where
  columns : List String
  rows : List GtfRow
deriving DecidableEq, Repr

/-- Accumulated intron row: one element of the junction list built inside
`generate_splice_sites`, with the same four columns the source uses. -/
structure Junction where
  Chromosome : String
  Start : Int
  End : Int
  Strand : String
deriving DecidableEq, Repr

/-- Row of the start-sites output view, columns `Chromosome, Start, Strand`. -/
structure StartSiteRow where
  Chromosome : String
  Start : Int
  Strand : String
deriving DecidableEq, Repr

/-- Row of the end-sites output view, columns `Chromosome, End, Strand`. -/
structure EndSiteRow where
  Chromosome : String
  End : Int
  Strand : String
deriving DecidableEq, Repr

/-- Errors of the core, per the error taxonomy of the specification. -/
inductive PipelineError where
  | SchemaError (detail : String) : PipelineError
  | MalformedGroupError (transcript_id : String) : PipelineError
deriving DecidableEq, Repr

/-- Lexicographic three-way comparison of two character lists by code
point.  This is the native ordering of chromosome strings used as the
primary sort key. -/
def cmpChars : List Char → List Char → Ordering
  | [], [] => Ordering.eq
  | [], _ :: _ => Ordering.lt
  | _ :: _, [] => Ordering.gt
  | a :: as, b :: bs =>
    if a.toNat < b.toNat then Ordering.lt
    else if b.toNat < a.toNat then Ordering.gt
    else cmpChars as bs

theorem char_eq_of_toNat (a b : Char) (h : a.toNat = b.toNat) : a = b :=
  Char.ext (UInt32.ext h)

theorem cmpChars_cons_lt {a b : Char} (h : a.toNat < b.toNat)
    (as bs : List Char) : cmpChars (a :: as) (b :: bs) = Ordering.lt := by
  simp only [cmpChars, if_pos h]

theorem cmpChars_cons_gt {a b : Char} (h : b.toNat < a.toNat)
    (as bs : List Char) : cmpChars (a :: as) (b :: bs) = Ordering.gt := by
  simp only [cmpChars, if_neg (by omega : ¬ a.toNat < b.toNat), if_pos h]

theorem cmpChars_cons_eqHead {a b : Char} (h : a.toNat = b.toNat)
    (as bs : List Char) : cmpChars (a :: as) (b :: bs) = cmpChars as bs := by
  simp only [cmpChars, if_neg (by omega : ¬ a.toNat < b.toNat),
    if_neg (by omega : ¬ b.toNat < a.toNat)]

theorem cmpChars_eq_iff (x y : List Char) : cmpChars x y = Ordering.eq ↔ x = y := by
  induction x generalizing y with
  | nil => cases y <;> simp [cmpChars]
  | cons a as ih =>
    cases y with
    | nil => simp [cmpChars]
    | cons b bs =>
      rcases Nat.lt_trichotomy a.toNat b.toNat with h1 | h1 | h1
      · rw [cmpChars_cons_lt h1 as bs]
        constructor
        · intro h; exact absurd h (by decide)
        · intro h
          injection h with h2 h3
          rw [h2] at h1
          omega
      · have hab : a = b := char_eq_of_toNat a b h1
        subst hab
        rw [cmpChars_cons_eqHead rfl as bs, ih]
        constructor
        · intro h; rw [h]
        · intro h; injection h
      · rw [cmpChars_cons_gt h1 as bs]
        constructor
        · intro h; exact absurd h (by decide)
        · intro h
          injection h with h2 h3
          rw [h2] at h1
          omega

theorem cmpChars_lt_of_gt (x y : List Char) :
    cmpChars x y = Ordering.gt → cmpChars y x = Ordering.lt := by
  induction x generalizing y with
  | nil => cases y <;> simp [cmpChars]
  | cons a as ih =>
    cases y with
    | nil => intro _; simp [cmpChars]
    | cons b bs =>
      intro h
      rcases Nat.lt_trichotomy a.toNat b.toNat with h1 | h1 | h1
      · rw [cmpChars_cons_lt h1 as bs] at h
        exact absurd h (by decide)
      · rw [cmpChars_cons_eqHead h1 as bs] at h
        rw [cmpChars_cons_eqHead (h1.symm) bs as]
        exact ih bs h
      · exact cmpChars_cons_lt h1 bs as

theorem cmpChars_lt_trans (x y z : List Char) :
    cmpChars x y = Ordering.lt → cmpChars y z = Ordering.lt →
      cmpChars x z = Ordering.lt := by
  induction x generalizing y z with
  | nil =>
    intro hxy hyz
    cases y with
    | nil => exact hyz
    | cons b bs =>
      cases z with
      | nil => simp [cmpChars] at hyz
      | cons c cs => simp [cmpChars]
  | cons a as ih =>
    intro hxy hyz
    cases y with
    | nil => simp [cmpChars] at hxy
    | cons b bs =>
      cases z with
      | nil => simp [cmpChars] at hyz
      | cons c cs =>
        rcases Nat.lt_trichotomy a.toNat b.toNat with hab | hab | hab
        · rcases Nat.lt_trichotomy b.toNat c.toNat with hbc | hbc | hbc
          · exact cmpChars_cons_lt (by omega) as cs
          · exact cmpChars_cons_lt (by omega) as cs
          · rw [cmpChars_cons_gt hbc bs cs] at hyz
            exact absurd hyz (by decide)
        · rcases Nat.lt_trichotomy b.toNat c.toNat with hbc | hbc | hbc
          · exact cmpChars_cons_lt (by omega) as cs
          · rw [cmpChars_cons_eqHead (by omega) as cs]
            rw [cmpChars_cons_eqHead hab as bs] at hxy
            rw [cmpChars_cons_eqHead hbc bs cs] at hyz
            exact ih bs cs hxy hyz
          · rw [cmpChars_cons_gt hbc bs cs] at hyz
            exact absurd hyz (by decide)
        · rw [cmpChars_cons_gt hab as bs] at hxy
          exact absurd hxy (by decide)

theorem cmpChars_total (x y : List Char) :
    cmpChars x y = Ordering.lt ∨ cmpChars x y = Ordering.eq ∨
      cmpChars y x = Ordering.lt := by
  cases h : cmpChars x y with
  | lt => exact Or.inl rfl
  | eq => exact Or.inr (Or.inl rfl)
  | gt => exact Or.inr (Or.inr (cmpChars_lt_of_gt x y h))

/-- Sort key of the junction table: `(Chromosome, Start)` ascending, the
chromosome compared lexicographically and the start numerically, as
`sort_values(by=[Chromosome, Start])` does in the source. -/
def keyLe (a b : Junction) : Prop :=
  cmpChars a.Chromosome.data b.Chromosome.data = Ordering.lt ∨
    (a.Chromosome = b.Chromosome ∧ a.Start ≤ b.Start)

instance keyLe.decRel : DecidableRel keyLe := fun a b => by
  unfold keyLe
  exact inferInstance

theorem string_eq_of_data (s t : String) (h : s.data = t.data) : s = t := by
  cases s
  cases t
  exact congrArg String.mk h

theorem keyLe_total (a b : Junction) : keyLe a b ∨ keyLe b a := by
  rcases cmpChars_total a.Chromosome.data b.Chromosome.data with h | h | h
  · exact Or.inl (Or.inl h)
  · have hc : a.Chromosome = b.Chromosome :=
      string_eq_of_data _ _ ((cmpChars_eq_iff _ _).mp h)
    rcases Int.le_total a.Start b.Start with hs | hs
    · exact Or.inl (Or.inr ⟨hc, hs⟩)
    · exact Or.inr (Or.inr ⟨hc.symm, hs⟩)
  · exact Or.inr (Or.inl h)

instance keyLe.isTotal : IsTotal Junction keyLe := ⟨keyLe_total⟩

theorem keyLe_trans (a b c : Junction) :
    keyLe a b → keyLe b c → keyLe a c := by
  intro hab hbc
  rcases hab with h1 | ⟨h1, h1s⟩
  · rcases hbc with h2 | ⟨h2, h2s⟩
    · exact Or.inl (cmpChars_lt_trans _ _ _ h1 h2)
    · left
      have hd : b.Chromosome.data = c.Chromosome.data := by rw [h2]
      rw [← hd]
      exact h1
  · rcases hbc with h2 | ⟨h2, h2s⟩
    · left
      have hd : a.Chromosome.data = b.Chromosome.data := by rw [h1]
      rw [hd]
      exact h2
    · exact Or.inr ⟨h1.trans h2, h1s.trans h2s⟩

instance keyLe.isTrans : IsTrans Junction keyLe := ⟨keyLe_trans⟩

/-- Ascending order on transcript identifiers, used to iterate the groups in
sorted key order as `DataFrame.groupby` does. -/
def stringLe (a b : String) : Prop :=
  ¬ cmpChars a.data b.data = Ordering.gt

instance stringLe.decRel : DecidableRel stringLe := fun a b => by
  unfold stringLe
  exact inferInstance

/-- Removal of exact duplicates keeping the first occurrence, the semantics
of `DataFrame.drop_duplicates()`: `seen` accumulates the representatives
already emitted. -/
def dropDupAux {α : Type} [DecidableEq α] (seen : List α) : List α → List α
  | [] => []
  | x :: xs =>
    if x ∈ seen then dropDupAux seen xs
    else x :: dropDupAux (x :: seen) xs

/-- Exact-duplicate removal keeping the first occurrence of each value, as
`DataFrame.drop_duplicates()` with the default `keep` does. -/
def dropDuplicates {α : Type} [DecidableEq α] (l : List α) : List α :=
  dropDupAux [] l

theorem mem_dropDupAux {α : Type} [DecidableEq α] (seen l : List α) (x : α) :
    x ∈ dropDupAux seen l ↔ x ∈ l ∧ x ∉ seen := by
  induction l generalizing seen with
  | nil => simp [dropDupAux]
  | cons y ys ih =>
    by_cases hy : y ∈ seen
    · rw [dropDupAux, if_pos hy, ih]
      constructor
      · rintro ⟨hx, hs⟩
        exact ⟨List.mem_cons_of_mem _ hx, hs⟩
      · rintro ⟨hx, hs⟩
        rcases List.mem_cons.mp hx with rfl | hx
        · exact absurd hy hs
        · exact ⟨hx, hs⟩
    · rw [dropDupAux, if_neg hy]
      constructor
      · intro hx
        rcases List.mem_cons.mp hx with rfl | hx
        · exact ⟨List.mem_cons_self _ _, hy⟩
        · obtain ⟨h1, h2⟩ := (ih (y :: seen)).mp hx
          refine ⟨List.mem_cons_of_mem _ h1, fun hs => h2 (List.mem_cons_of_mem _ hs)⟩
      · rintro ⟨hx, hs⟩
        rcases List.mem_cons.mp hx with rfl | hx
        · exact List.mem_cons_self _ _
        · by_cases hxy : x = y
          · subst hxy
            exact List.mem_cons_self _ _
          · refine List.mem_cons_of_mem _ ((ih (y :: seen)).mpr ⟨hx, ?_⟩)
            intro hmem
            rcases List.mem_cons.mp hmem with h | h
            · exact hxy h
            · exact hs h

theorem dropDupAux_sublist {α : Type} [DecidableEq α] (seen l : List α) :
    (dropDupAux seen l).Sublist l := by
  induction l generalizing seen with
  | nil => simp [dropDupAux]
  | cons y ys ih =>
    by_cases hy : y ∈ seen
    · rw [dropDupAux, if_pos hy]
      exact (ih seen).cons y
    · rw [dropDupAux, if_neg hy]
      exact (ih (y :: seen)).cons₂ y

theorem nodup_dropDupAux {α : Type} [DecidableEq α] (seen l : List α) :
    (dropDupAux seen l).Nodup := by
  induction l generalizing seen with
  | nil => simp [dropDupAux]
  | cons y ys ih =>
    by_cases hy : y ∈ seen
    · rw [dropDupAux, if_pos hy]
      exact ih seen
    · rw [dropDupAux, if_neg hy]
      refine List.nodup_cons.mpr ⟨?_, ih (y :: seen)⟩
      intro hmem
      exact ((mem_dropDupAux (y :: seen) ys y).mp hmem).2 (List.mem_cons_self _ _)

theorem dropDupAux_eq_self {α : Type} [DecidableEq α] (seen l : List α)
    (hnd : l.Nodup) (hdisj : ∀ x ∈ l, x ∉ seen) : dropDupAux seen l = l := by
  induction l generalizing seen with
  | nil => simp [dropDupAux]
  | cons y ys ih =>
    rw [dropDupAux, if_neg (hdisj y (List.mem_cons_self _ _))]
    obtain ⟨hy, hys⟩ := List.nodup_cons.mp hnd
    congr 1
    refine ih (y :: seen) hys ?_
    intro x hx hmem
    rcases List.mem_cons.mp hmem with rfl | h
    · exact hy hx
    · exact hdisj x (List.mem_cons_of_mem _ hx) h

theorem dropDupAux_append_singleton {α : Type} [DecidableEq α]
    (seen m : List α) (x : α) :
    dropDupAux seen (m ++ [x]) =
      if x ∈ seen ∨ x ∈ m then dropDupAux seen m
      else dropDupAux seen m ++ [x] := by
  induction m generalizing seen with
  | nil =>
    by_cases hx : x ∈ seen
    · simp [dropDupAux, hx]
    · simp [dropDupAux, hx]
  | cons y m ih =>
    by_cases hy : y ∈ seen
    · have hcond : (x ∈ seen ∨ x ∈ m) ↔ (x ∈ seen ∨ x ∈ y :: m) := by
        constructor
        · rintro (h | h)
          · exact Or.inl h
          · exact Or.inr (List.mem_cons_of_mem _ h)
        · rintro (h | h)
          · exact Or.inl h
          · rcases List.mem_cons.mp h with rfl | h2
            · exact Or.inl hy
            · exact Or.inr h2
      simp only [List.cons_append, dropDupAux, List.append_eq, if_pos hy]
      rw [ih seen]
      exact if_congr hcond rfl rfl
    · have hcond : (x ∈ y :: seen ∨ x ∈ m) ↔ (x ∈ seen ∨ x ∈ y :: m) := by
        constructor
        · rintro (h | h)
          · rcases List.mem_cons.mp h with rfl | h2
            · exact Or.inr (List.mem_cons_self _ _)
            · exact Or.inl h2
          · exact Or.inr (List.mem_cons_of_mem _ h)
        · rintro (h | h)
          · exact Or.inl (List.mem_cons_of_mem _ h)
          · rcases List.mem_cons.mp h with rfl | h2
            · exact Or.inl (List.mem_cons_self _ _)
            · exact Or.inr h2
      simp only [List.cons_append, dropDupAux, List.append_eq, if_neg hy]
      rw [ih (y :: seen)]
      by_cases hc : x ∈ seen ∨ x ∈ y :: m
      · rw [if_pos hc, if_pos (hcond.mpr hc)]
      · rw [if_neg hc, if_neg (fun h => hc (hcond.mp h))]

theorem mem_dropDuplicates {α : Type} [DecidableEq α] (l : List α) (x : α) :
    x ∈ dropDuplicates l ↔ x ∈ l := by
  rw [dropDuplicates, mem_dropDupAux]
  simp

theorem dropDuplicates_sublist {α : Type} [DecidableEq α] (l : List α) :
    (dropDuplicates l).Sublist l :=
  dropDupAux_sublist [] l

theorem nodup_dropDuplicates {α : Type} [DecidableEq α] (l : List α) :
    (dropDuplicates l).Nodup :=
  nodup_dropDupAux [] l

theorem dropDuplicates_eq_self {α : Type} [DecidableEq α] (l : List α)
    (hnd : l.Nodup) : dropDuplicates l = l :=
  dropDupAux_eq_self [] l hnd (by simp)

theorem dropDuplicates_append_singleton {α : Type} [DecidableEq α]
    (m : List α) (x : α) :
    dropDuplicates (m ++ [x]) =
      if x ∈ m then dropDuplicates m else dropDuplicates m ++ [x] := by
  rw [dropDuplicates, dropDupAux_append_singleton]
  simp [dropDuplicates]

/-- Exon rows of a transcript partition: the rows whose `Feature` column is
the exon feature. -/
def exonRows (g : List GtfRow) : List GtfRow :=
  g.filter (fun r => decide (r.Feature = "exon"))

/-- Ascending order on the `Start` column, used to sort the exon list of a
transcript by genomic position. -/
def startLe (a b : GtfRow) : Prop := a.Start ≤ b.Start

instance startLe.decRel : DecidableRel startLe := fun a b => by
  unfold startLe
  exact inferInstance

instance startLe.isTotal : IsTotal GtfRow startLe :=
  ⟨fun a b => Int.le_total a.Start b.Start⟩

instance startLe.isTrans : IsTrans GtfRow startLe :=
  ⟨fun _ _ _ h1 h2 => le_trans h1 h2⟩

/-- Modelled from the spec: the data-integrity condition of the Transcript
Builder.  All exon rows of one transcript partition must agree on
`Chromosome` and `Strand`; `alphagenome.data.transcript.Transcript` is not
under the available sources, and the specification states the invariant and
the MalformedGroupError policy for its violation. -/
def agreeChromStrand (g : List GtfRow) : Bool :=
  match exonRows g with
  | [] => true
  | r :: rs =>
    rs.all (fun s =>
      decide (s.Chromosome = r.Chromosome) && decide (s.Strand = r.Strand))

/-- Modelled from the spec: a Transcript owns an ordered sequence of exon
intervals sorted by genomic position ascending, plus a single strand and
chromosome shared by all its exons. -/
structure Transcript where
  chromosome : String
  strand : String
  exons : List (Int × Int)
deriving DecidableEq, Repr

/-- Modelled from the spec: `Transcript.from_gtf_df` of
`alphagenome.data.transcript` is not under the available sources.  Per the
specification, the Transcript of a partition has as exon list exactly the
rows with `feature = exon` of that partition sorted by `start` ascending,
and a partition whose exon rows disagree on chromosome or strand surfaces a
MalformedGroupError naming the offending transcript id. -/
def transcriptOfGroup (g : List GtfRow) : Transcript :=
  { chromosome := ((exonRows g).head?.map GtfRow.Chromosome).getD ""
    strand := ((exonRows g).head?.map GtfRow.Strand).getD ""
    exons := (List.insertionSort startLe (exonRows g)).map
      (fun r => (r.Start, r.End)) }

/-- Modelled from the spec: construction of the Transcript of one
partition, failing on the data-integrity violation. -/
def from_gtf_df (tid : String) (g : List GtfRow) : Except PipelineError Transcript :=
  if agreeChromStrand g then Except.ok (transcriptOfGroup g)
  else Except.error (PipelineError.MalformedGroupError tid)

/-- Modelled from the spec: the `introns` property of
`alphagenome.data.transcript.Transcript` is not under the available sources.
Per the specification, for exons `e_1 < ... < e_n` sorted by start the
introns are exactly the gaps `(end e_i, start e_(i+1))` for `i = 1..n-1`,
each carrying the chromosome and strand of the transcript. -/
def Transcript.introns (t : Transcript) : List Junction :=
  (t.exons.zip t.exons.tail).map
    (fun p =>
      { Chromosome := t.chromosome
        Start := p.1.2
        End := p.2.1
        Strand := t.strand })

/-- Distinct transcript identifiers present in the table, in ascending
order: `DataFrame.groupby` drops rows whose key is absent and iterates the
groups in sorted key order. -/
def transcriptKeys (rows : List GtfRow) : List String :=
  List.insertionSort stringLe ((rows.filterMap (fun r => r.transcript_id)).dedup)

/-- Partition of the table by `transcript_id`, the semantics of
`gtf.groupby(transcript_id)` in the source: one group per present key, the
rows of a group kept in table order, rows with an absent id in no group. -/
def groupByTranscript (rows : List GtfRow) : List (String × List GtfRow) :=
  (transcriptKeys rows).map
    (fun k => (k, rows.filter (fun r => decide (r.transcript_id = some k))))

/-- Construction of one Transcript per partition, stopping at the first
partition the builder rejects. -/
def buildTranscriptsGroups :
    List (String × List GtfRow) → Except PipelineError (List (String × Transcript))
  | [] => Except.ok []
  | (k, g) :: rest =>
    match from_gtf_df k g with
    | Except.error e => Except.error e
    | Except.ok t =>
      match buildTranscriptsGroups rest with
      | Except.error e => Except.error e
      | Except.ok ts => Except.ok ((k, t) :: ts)

/-- Transcript Builder of the specification: mapping from transcript id to
Transcript, built from the groups of the table. -/
def buildTranscripts (rows : List GtfRow) :
    Except PipelineError (List (String × Transcript)) :=
  buildTranscriptsGroups (groupByTranscript rows)

/-- Columns of the AnnotationRecord schema that ingestion guarantees. -/
def requiredColumns : List String :=
  ["Chromosome", "Start", "End", "Strand", "Feature", "gene_id",
    "transcript_id", "gene_id_nopatch"]

/-- Modelled from the spec: the SchemaError validation of the core is not
under the available sources.  The input table must carry every required
column and satisfy `start < end` on every row; a violation surfaces a
SchemaError immediately, carrying the chromosome of the first offending row
when one exists. -/
def checkSchema (t : Table) : Except PipelineError Unit :=
  if requiredColumns.all (fun c => decide (c ∈ t.columns)) then
    match t.rows.find? (fun r => decide (r.End ≤ r.Start)) with
    | some r => Except.error (PipelineError.SchemaError r.Chromosome)
    | none => Except.ok ()
  else Except.error (PipelineError.SchemaError "missing required column")

/-- Junctions accumulated across all transcripts, in group order, as the
loop over `transcripts.items()` does in the source. -/
def junctionsOf (ts : List (String × Transcript)) : List Junction :=
  ts.flatMap (fun kt => kt.2.introns)

/-- Sort of the junction table by `(Chromosome, Start)` ascending, the
`sort_values` step of the source, with a stable sort. -/
def sortJunctions (l : List Junction) : List Junction :=
  List.insertionSort keyLe l

/-- Sort-then-dedup step of the source: `sort_values` by
`(Chromosome, Start)` followed by `drop_duplicates()` keeping the first
occurrence of each exact `(Chromosome, Start, End, Strand)` tuple. -/
def sortDedup (l : List Junction) : List Junction :=
  dropDuplicates (sortJunctions l)

/-- Deduplicated, sorted junction table both output views project from. -/
def spliceTable (ts : List (String × Transcript)) : List Junction :=
  sortDedup (junctionsOf ts)

/-- Projection of a junction row onto the start-sites view. -/
def projStart (j : Junction) : StartSiteRow :=
  { Chromosome := j.Chromosome, Start := j.Start, Strand := j.Strand }

/-- Projection of a junction row onto the end-sites view. -/
def projEnd (j : Junction) : EndSiteRow :=
  { Chromosome := j.Chromosome, End := j.End, Strand := j.Strand }

/-- Core of `generate_splice_sites` in `scripts/process_gtf.py`: group the
table by transcript id, build the transcripts, accumulate their introns,
sort by `(Chromosome, Start)`, drop exact duplicates, and project the two
views; the validation of the input and of the partitions is modelled from
the specification and wraps the result in `Except`. -/
def generate_splice_sites (t : Table) :
    Except PipelineError (List StartSiteRow × List EndSiteRow) :=
  match checkSchema t with
  | Except.error e => Except.error e
  | Except.ok _ =>
    match buildTranscripts t.rows with
    | Except.error e => Except.error e
    | Except.ok ts =>
      Except.ok ((spliceTable ts).map projStart, (spliceTable ts).map projEnd)

/-- Name the specification uses for the splice-site pipeline. -/
def deriveSpliceSites :
    Table → Except PipelineError (List StartSiteRow × List EndSiteRow) :=
  generate_splice_sites

/-- Fixture of the repository test: one gene row, one transcript row and two
exon rows of transcript `T2` on `chr1`, ingestion-normalized coordinates. -/
def fixtureRows : List GtfRow :=
  [{ Chromosome := "chr1", Start := 12099, End := 21316, Strand := "+",
     Feature := "gene", gene_id := "G1", transcript_id := none },
   { Chromosome := "chr1", Start := 12099, End := 18244, Strand := "+",
     Feature := "transcript", gene_id := "G1", transcript_id := some "T2" },
   { Chromosome := "chr1", Start := 12099, End := 14148, Strand := "+",
     Feature := "exon", gene_id := "G1", transcript_id := some "T2" },
   { Chromosome := "chr1", Start := 16195, End := 17220, Strand := "+",
     Feature := "exon", gene_id := "G1", transcript_id := some "T2" }]

/-- Fixture table carrying the full required schema. -/
def fixtureTable : Table :=
  { columns := requiredColumns, rows := fixtureRows }

/-- Exon row on `chr1`, forward strand, used to assemble small fixtures. -/
def exonRow (tid : String) (s e : Int) : GtfRow :=
  { Chromosome := "chr1", Start := s, End := e, Strand := "+",
    Feature := "exon", gene_id := "G1", transcript_id := some tid }

/-- Fixture with two transcripts whose introns share
`(Chromosome, Start, Strand)` but differ in `End`. -/
def dupStartTable : Table :=
  { columns := requiredColumns,
    rows := [exonRow "A" 0 10, exonRow "A" 20 30,
      exonRow "B" 0 10, exonRow "B" 25 30] }

/-- Transcripts the builder constructs from `dupStartTable`. -/
def dupStartTranscripts : List (String × Transcript) :=
  [("A", { chromosome := "chr1", strand := "+", exons := [(0, 10), (20, 30)] }),
   ("B", { chromosome := "chr1", strand := "+", exons := [(0, 10), (25, 30)] })]

/-- Fixture whose only transcript partition mixes two strands. -/
def badStrandTable : Table :=
  { columns := requiredColumns,
    rows := [exonRow "A" 0 10,
      { exonRow "A" 20 30 with Strand := "-" }] }

/-- Fixture whose transcripts all hold a single exon. -/
def singleExonTable : Table :=
  { columns := requiredColumns, rows := [exonRow "A" 0 10] }

/-- Transcript partition whose two exon rows overlap: each row satisfies
`start < end` and both agree on chromosome and strand. -/
def overlappingExonRows : List GtfRow :=
  [exonRow "T" 0 10, exonRow "T" 5 20]

/-- Transcript built from `overlappingExonRows`. -/
def overlappingExonTranscript : Transcript :=
  { chromosome := "chr1", strand := "+", exons := [(0, 10), (5, 20)] }

theorem sorted_sortJunctions (l : List Junction) :
    List.Sorted keyLe (sortJunctions l) :=
  List.sorted_insertionSort keyLe l

theorem sorted_sortDedup (l : List Junction) :
    List.Sorted keyLe (sortDedup l) :=
  List.Pairwise.sublist (dropDuplicates_sublist _) (sorted_sortJunctions l)

theorem nodup_sortDedup (l : List Junction) : (sortDedup l).Nodup :=
  nodup_dropDuplicates _

/-- C1: the pipeline sorts the accumulated intron sequence by
`(Chromosome, Start)` ascending and then removes exact duplicate
`(Chromosome, Start, End, Strand)` tuples keeping the first occurrence
without reordering the surviving rows: the result is a duplicate-free
subsequence of the sorted sequence that keeps exactly the accumulated
tuples, a freshly appended row is dropped exactly when its tuple occurred
before, and consequently every adjacent pair of output rows is ordered by
`(Chromosome, Start)`. -/
theorem C1_sort_then_dedup (l : List Junction) :
    (sortDedup l).Sublist (sortJunctions l) ∧
    (sortDedup l).Nodup ∧
    (∀ x : Junction, x ∈ sortDedup l ↔ x ∈ l) ∧
    (∀ (m : List Junction) (x : Junction),
      dropDuplicates (m ++ [x]) =
        if x ∈ m then dropDuplicates m else dropDuplicates m ++ [x]) ∧
    List.Chain' keyLe (sortDedup l) := by
  refine ⟨dropDuplicates_sublist _, nodup_sortDedup l, ?_, ?_, ?_⟩
  · intro x
    rw [sortDedup, mem_dropDuplicates]
    exact (List.perm_insertionSort keyLe l).mem_iff
  · exact fun m x => dropDuplicates_append_singleton m x
  · exact List.Pairwise.chain' (sorted_sortDedup l)

/-- C8: the sort-then-dedup step is idempotent: applying the sort by
`(Chromosome, Start)` followed by exact-tuple deduplication twice yields
exactly the same table as applying it once. -/
theorem C8_sortDedup_idempotent (l : List Junction) :
    sortDedup (sortDedup l) = sortDedup l := by
  show dropDuplicates (sortJunctions (sortDedup l)) = sortDedup l
  rw [show sortJunctions (sortDedup l) = sortDedup l from
    List.Sorted.insertionSort_eq (sorted_sortDedup l)]
  exact dropDuplicates_eq_self _ (nodup_sortDedup l)

/-- C9: the pipeline is deterministic: two runs of the splice-site
derivation on the same table yield identical output tables, rows and order
included. -/
theorem C9_deterministic (t₁ t₂ : Table) (h : t₁ = t₂) :
    generate_splice_sites t₁ = generate_splice_sites t₂ := by
  rw [h]

/-- Witness for C9 at the repository fixture table. -/
theorem C9_deterministic_witness :
    generate_splice_sites fixtureTable = generate_splice_sites fixtureTable :=
  C9_deterministic fixtureTable fixtureTable rfl

theorem introns_length (t : Transcript) :
    t.introns.length = t.exons.length - 1 := by
  unfold Transcript.introns
  rw [List.length_map, List.length_zip, List.length_tail]
  omega

theorem introns_getElem (t : Transcript) (i : Nat)
    (h : i < t.introns.length) :
    t.introns.get ⟨i, h⟩ =
      { Chromosome := t.chromosome
        Start := (t.exons.get ⟨i, by rw [introns_length] at h; omega⟩).2
        End := (t.exons.get ⟨i + 1, by rw [introns_length] at h; omega⟩).1
        Strand := t.strand } := by
  have hz : i < (t.exons.zip t.exons.tail).length := by
    unfold Transcript.introns at h
    rw [List.length_map] at h
    exact h
  simp only [List.get_eq_getElem]
  unfold Transcript.introns
  rw [List.getElem_map]
  rw [List.getElem_zip]
  rw [List.getElem_tail]

/-- C2 (amended): for every Transcript, the derived introns are exactly the
gaps between consecutive exons of its sorted exon list — the intron count is
`exons.length - 1` (zero for a transcript with fewer than two exons) and
intron `i` runs from the end of exon `i` to the start of exon `i + 1` on
the chromosome and strand of the transcript — and every derived intron
satisfies `start < end` provided every pair of consecutive exons is
separated by a positive gap. -/
theorem C2_introns_exact_gaps (t : Transcript) :
    t.introns.length = t.exons.length - 1 ∧
    (∀ (i : Nat) (e₁ e₂ : Int × Int),
      t.exons[i]? = some e₁ → t.exons[i+1]? = some e₂ →
        t.introns[i]? = some
          { Chromosome := t.chromosome, Start := e₁.2, End := e₂.1,
            Strand := t.strand }) ∧
    (List.Chain' (fun e₁ e₂ : Int × Int => e₁.2 < e₂.1) t.exons →
      ∀ j ∈ t.introns, j.Start < j.End) := by
  refine ⟨introns_length t, ?_, ?_⟩
  · intro i e₁ e₂ h1 h2
    have hb2 : i + 1 < t.exons.length := by
      rcases List.getElem?_eq_some.mp h2 with ⟨hb, _⟩
      exact hb
    have hbi : i < t.introns.length := by
      rw [introns_length]
      omega
    rw [List.getElem?_eq_getElem hbi]
    have hgi : t.introns[i] = t.introns.get ⟨i, hbi⟩ := rfl
    rw [hgi, introns_getElem t i hbi]
    have he1 : t.exons.get ⟨i, by omega⟩ = e₁ := by
      rcases List.getElem?_eq_some.mp h1 with ⟨hb, hv⟩
      rw [List.get_eq_getElem]
      exact hv
    have he2 : t.exons.get ⟨i + 1, hb2⟩ = e₂ := by
      rcases List.getElem?_eq_some.mp h2 with ⟨hb, hv⟩
      rw [List.get_eq_getElem]
      exact hv
    rw [he1, he2]
  · intro hch j hj
    rcases List.mem_iff_getElem.mp hj with ⟨i, hi, hv⟩
    have hgi : t.introns[i] = t.introns.get ⟨i, hi⟩ := rfl
    rw [hgi, introns_getElem t i hi] at hv
    have hb : i < t.exons.length - 1 := by
      rw [introns_length] at hi
      exact hi
    have hgap := List.chain'_iff_get.mp hch i hb
    rw [List.get_eq_getElem, List.get_eq_getElem] at hgap
    rw [← hv]
    exact hgap

/-- Counterexample to C2 as stated: the two exon rows of
`overlappingExonRows` each satisfy `start < end` and agree on chromosome and
strand, the builder accepts them, yet the derived intron runs from 10 to 5,
refuting that every derived intron satisfies `start < end`. -/
theorem C2_counterexample :
    from_gtf_df "T" overlappingExonRows =
      Except.ok overlappingExonTranscript ∧
    Transcript.introns overlappingExonTranscript =
      [{ Chromosome := "chr1", Start := 10, End := 5, Strand := "+" }] ∧
    ¬ (∀ j ∈ Transcript.introns overlappingExonTranscript,
        j.Start < j.End) := by
  refine ⟨rfl, rfl, fun h => ?_⟩
  have h10 := h
    { Chromosome := "chr1", Start := 10, End := 5, Strand := "+" }
    (by decide)
  exact absurd h10 (by decide)

theorem filterMap_tid_filter_isSome (rows : List GtfRow) :
    (rows.filter (fun r => r.transcript_id.isSome)).filterMap
        (fun r => r.transcript_id) =
      rows.filterMap (fun r => r.transcript_id) := by
  induction rows with
  | nil => rfl
  | cons r rest ih =>
    cases h : r.transcript_id with
    | none => simp [List.filter_cons, List.filterMap_cons, h, ih]
    | some v => simp [List.filter_cons, List.filterMap_cons, h, ih]

theorem filter_key_filter_isSome (rows : List GtfRow) (k : String) :
    (rows.filter (fun r => r.transcript_id.isSome)).filter
        (fun r => decide (r.transcript_id = some k)) =
      rows.filter (fun r => decide (r.transcript_id = some k)) := by
  rw [List.filter_filter]
  apply List.filter_congr
  intro x hx
  cases h : x.transcript_id with
  | none => simp [h]
  | some v => simp [h]

theorem transcriptKeys_filter_isSome (rows : List GtfRow) :
    transcriptKeys (rows.filter (fun r => r.transcript_id.isSome)) =
      transcriptKeys rows := by
  rw [transcriptKeys, transcriptKeys, filterMap_tid_filter_isSome]

theorem groupByTranscript_filter_isSome (rows : List GtfRow) :
    groupByTranscript (rows.filter (fun r => r.transcript_id.isSome)) =
      groupByTranscript rows := by
  rw [groupByTranscript, groupByTranscript, transcriptKeys_filter_isSome]
  apply List.map_congr_left
  intro k hk
  rw [filter_key_filter_isSome]

/-- C3: the partitioning excludes every row with an absent transcript id:
each row of each partition carries the key of its partition as transcript
id, and removing the gene-level rows changes neither the partitioning nor
the built transcripts, so gene-level rows contribute no intron to the
splice-site output. -/
theorem C3_gene_rows_excluded (rows : List GtfRow) :
    (∀ p ∈ groupByTranscript rows, ∀ r ∈ p.2, r.transcript_id = some p.1) ∧
    groupByTranscript (rows.filter (fun r => r.transcript_id.isSome)) =
      groupByTranscript rows ∧
    buildTranscripts (rows.filter (fun r => r.transcript_id.isSome)) =
      buildTranscripts rows := by
  refine ⟨?_, groupByTranscript_filter_isSome rows, ?_⟩
  · intro p hp r hr
    rcases List.mem_map.mp hp with ⟨k, hk, rfl⟩
    exact of_decide_eq_true (List.mem_filter.mp hr).2
  · rw [buildTranscripts, buildTranscripts, groupByTranscript_filter_isSome]

/-- Witness for C3 at the repository fixture: the gene row of the fixture
sits in no partition, and filtering it away leaves the grouping unchanged. -/
theorem C3_gene_rows_excluded_witness :
    (GtfRow.transcript_id
        { Chromosome := "chr1", Start := 12099, End := 14148, Strand := "+",
          Feature := "exon", gene_id := "G1", transcript_id := some "T2" } =
      some "T2") ∧
    groupByTranscript (fixtureRows.filter (fun r => r.transcript_id.isSome)) =
      groupByTranscript fixtureRows :=
  ⟨(C3_gene_rows_excluded fixtureRows).1
      ("T2", fixtureRows.filter (fun r => decide (r.transcript_id = some "T2")))
      (by decide)
      { Chromosome := "chr1", Start := 12099, End := 14148, Strand := "+",
        Feature := "exon", gene_id := "G1", transcript_id := some "T2" }
      (by decide),
    (C3_gene_rows_excluded fixtureRows).2.1⟩

theorem from_gtf_df_ok (k : String) (g : List GtfRow)
    (h : agreeChromStrand g = true) :
    from_gtf_df k g = Except.ok (transcriptOfGroup g) := by
  rw [from_gtf_df, if_pos h]

theorem from_gtf_df_error (k : String) (g : List GtfRow)
    (h : agreeChromStrand g = false) :
    from_gtf_df k g = Except.error (PipelineError.MalformedGroupError k) := by
  rw [from_gtf_df, if_neg (by rw [h]; exact Bool.false_ne_true)]

theorem build_ok_of_all (gs : List (String × List GtfRow))
    (h : ∀ p ∈ gs, agreeChromStrand p.2 = true) :
    buildTranscriptsGroups gs =
      Except.ok (gs.map (fun p => (p.1, transcriptOfGroup p.2))) := by
  induction gs with
  | nil => rfl
  | cons q rest ih =>
    obtain ⟨k, g⟩ := q
    simp only [buildTranscriptsGroups,
      from_gtf_df_ok k g (h (k, g) (List.mem_cons_self _ _)),
      ih (fun p hp => h p (List.mem_cons_of_mem _ hp)), List.map_cons]

theorem build_ok_all (gs : List (String × List GtfRow))
    (ts : List (String × Transcript))
    (h : buildTranscriptsGroups gs = Except.ok ts) :
    ∀ p ∈ gs, agreeChromStrand p.2 = true := by
  induction gs generalizing ts with
  | nil => intro p hp; exact absurd hp (List.not_mem_nil p)
  | cons q rest ih =>
    obtain ⟨k, g⟩ := q
    intro p hp
    simp only [buildTranscriptsGroups] at h
    cases hf : from_gtf_df k g with
    | error e =>
      rw [hf] at h
      exact Except.noConfusion h
    | ok tr =>
      rw [hf] at h
      cases hb : buildTranscriptsGroups rest with
      | error e =>
        rw [hb] at h
        exact Except.noConfusion h
      | ok ts2 =>
        rw [hb] at h
        rcases List.mem_cons.mp hp with rfl | hp2
        · by_cases hag : agreeChromStrand g = true
          · exact hag
          · rw [from_gtf_df, if_neg hag] at hf
            exact Except.noConfusion hf
        · exact ih ts2 hb p hp2

theorem build_error_shape (gs : List (String × List GtfRow))
    (e : PipelineError) (h : buildTranscriptsGroups gs = Except.error e) :
    ∃ p ∈ gs, agreeChromStrand p.2 = false ∧
      e = PipelineError.MalformedGroupError p.1 := by
  induction gs generalizing e with
  | nil => exact absurd h (by rw [buildTranscriptsGroups]; exact fun hc => Except.noConfusion hc)
  | cons q rest ih =>
    obtain ⟨k, g⟩ := q
    simp only [buildTranscriptsGroups] at h
    cases hf : from_gtf_df k g with
    | error e2 =>
      rw [hf] at h
      injection h with he
      by_cases hag : agreeChromStrand g = true
      · rw [from_gtf_df, if_pos hag] at hf
        exact Except.noConfusion hf
      · have hagf : agreeChromStrand g = false := Bool.not_eq_true _ ▸ Bool.of_not_eq_true hag
        rw [from_gtf_df_error k g hagf] at hf
        injection hf with hf2
        exact ⟨(k, g), List.mem_cons_self _ _, hagf, by rw [← he, ← hf2]⟩
    | ok tr =>
      rw [hf] at h
      cases hb : buildTranscriptsGroups rest with
      | ok ts =>
        rw [hb] at h
        exact Except.noConfusion h
      | error e2 =>
        rw [hb] at h
        injection h with he
        obtain ⟨p, hp, hag, hE⟩ := ih e2 hb
        exact ⟨p, List.mem_cons_of_mem _ hp, hag, by rw [← he]; exact hE⟩

theorem checkSchema_ok_iff (t : Table) :
    checkSchema t = Except.ok () ↔
      ((∀ c ∈ requiredColumns, c ∈ t.columns) ∧
        ∀ r ∈ t.rows, r.Start < r.End) := by
  rw [checkSchema]
  by_cases hall : requiredColumns.all (fun c => decide (c ∈ t.columns)) = true
  · rw [if_pos hall]
    cases hf : t.rows.find? (fun r => decide (r.End ≤ r.Start)) with
    | some r =>
      constructor
      · intro h
        exact Except.noConfusion h
      · rintro ⟨-, hrows⟩
        have h0 := List.find?_some hf
        have h1 : r.End ≤ r.Start := of_decide_eq_true h0
        have h2 : r.Start < r.End := hrows r (List.mem_of_find?_eq_some hf)
        omega
    | none =>
      constructor
      · intro _
        refine ⟨?_, ?_⟩
        · intro c hc
          exact of_decide_eq_true ((List.all_eq_true.mp hall) c hc)
        · intro r hr
          have h1 := List.find?_eq_none.mp hf r hr
          have h2 : ¬ r.End ≤ r.Start := fun hle => h1 (decide_eq_true hle)
          omega
      · intro _
        rfl
  · rw [if_neg hall]
    constructor
    · intro h
      exact Except.noConfusion h
    · rintro ⟨hcols, -⟩
      exfalso
      apply hall
      rw [List.all_eq_true]
      intro c hc
      exact decide_eq_true (hcols c hc)

theorem checkSchema_cases (t : Table) :
    checkSchema t = Except.ok () ∨
      ∃ d, checkSchema t = Except.error (PipelineError.SchemaError d) := by
  rw [checkSchema]
  by_cases hall : requiredColumns.all (fun c => decide (c ∈ t.columns)) = true
  · rw [if_pos hall]
    cases hf : t.rows.find? (fun r => decide (r.End ≤ r.Start)) with
    | some r => exact Or.inr ⟨r.Chromosome, rfl⟩
    | none => exact Or.inl rfl
  · rw [if_neg hall]
    exact Or.inr ⟨"missing required column", rfl⟩

theorem checkSchema_error_iff (t : Table) :
    (∃ d, checkSchema t = Except.error (PipelineError.SchemaError d)) ↔
      (¬ (∀ c ∈ requiredColumns, c ∈ t.columns) ∨
        ∃ r ∈ t.rows, r.End ≤ r.Start) := by
  constructor
  · rintro ⟨d, hd⟩
    by_cases hok : (∀ c ∈ requiredColumns, c ∈ t.columns) ∧
        ∀ r ∈ t.rows, r.Start < r.End
    · rw [(checkSchema_ok_iff t).mpr hok] at hd
      exact Except.noConfusion hd
    · rcases not_and_or.mp hok with h | h
      · exact Or.inl h
      · right
        push_neg at h
        obtain ⟨r, hr, hlt⟩ := h
        exact ⟨r, hr, by omega⟩
  · intro h
    rcases checkSchema_cases t with hok | herr
    · exfalso
      obtain ⟨hcols, hrows⟩ := (checkSchema_ok_iff t).mp hok
      rcases h with h | ⟨r, hr, hle⟩
      · exact h hcols
      · have := hrows r hr
        omega
    · exact herr

theorem generate_of_checkSchema_error (t : Table) (e : PipelineError)
    (h : checkSchema t = Except.error e) :
    generate_splice_sites t = Except.error e := by
  rw [generate_splice_sites, h]

theorem generate_of_build_error (t : Table) (e : PipelineError)
    (hs : checkSchema t = Except.ok ())
    (h : buildTranscripts t.rows = Except.error e) :
    generate_splice_sites t = Except.error e := by
  rw [generate_splice_sites, hs, h]

theorem generate_of_build_ok (t : Table) (ts : List (String × Transcript))
    (hs : checkSchema t = Except.ok ())
    (h : buildTranscripts t.rows = Except.ok ts) :
    generate_splice_sites t =
      Except.ok ((spliceTable ts).map projStart, (spliceTable ts).map projEnd) := by
  rw [generate_splice_sites, hs, h]

theorem generate_ok_shape (t : Table) (starts : List StartSiteRow)
    (ends : List EndSiteRow)
    (h : generate_splice_sites t = Except.ok (starts, ends)) :
    ∃ ts, buildTranscripts t.rows = Except.ok ts ∧
      starts = (spliceTable ts).map projStart ∧
      ends = (spliceTable ts).map projEnd := by
  rw [generate_splice_sites] at h
  cases hs : checkSchema t with
  | error e =>
    rw [hs] at h
    exact Except.noConfusion h
  | ok u =>
    cases u
    rw [hs] at h
    cases hb : buildTranscripts t.rows with
    | error e =>
      rw [hb] at h
      exact Except.noConfusion h
    | ok ts =>
      rw [hb] at h
      injection h with hpair
      injection hpair with h1 h2
      exact ⟨ts, rfl, h1.symm, h2.symm⟩

theorem agree_of_short (g : List GtfRow) (h : (exonRows g).length ≤ 1) :
    agreeChromStrand g = true := by
  unfold agreeChromStrand
  cases hx : exonRows g with
  | nil => rfl
  | cons r rs =>
    have hrs : rs = [] := by
      rw [hx, List.length_cons] at h
      exact List.eq_nil_of_length_eq_zero (by omega)
    subst hrs
    rfl

theorem transcriptOfGroup_exons_length (g : List GtfRow) :
    (transcriptOfGroup g).exons.length = (exonRows g).length := by
  show ((List.insertionSort startLe (exonRows g)).map
      (fun r => (r.Start, r.End))).length = _
  rw [List.length_map]
  exact (List.perm_insertionSort startLe (exonRows g)).length_eq

theorem introns_nil_of_short (tr : Transcript) (h : tr.exons.length ≤ 1) :
    tr.introns = [] := by
  apply List.eq_nil_of_length_eq_zero
  rw [introns_length]
  omega

theorem junctionsOf_eq_nil (ts : List (String × Transcript))
    (h : ∀ kt ∈ ts, kt.2.introns = []) : junctionsOf ts = [] := by
  induction ts with
  | nil => rfl
  | cons kt rest ih =>
    rw [junctionsOf, List.flatMap_cons, h kt (List.mem_cons_self _ _),
      List.nil_append]
    exact ih (fun q hq => h q (List.mem_cons_of_mem _ hq))

/-- C5: a transcript partition whose exon rows disagree on chromosome or
strand makes the pipeline surface a MalformedGroupError naming a transcript
id, with no output; on every schema-clean table free of such disagreement,
that error branch is never taken. -/
theorem C5_malformed_surfaced (t : Table)
    (hs : checkSchema t = Except.ok ()) :
    (∃ k, generate_splice_sites t =
        Except.error (PipelineError.MalformedGroupError k)) ↔
      ∃ p ∈ groupByTranscript t.rows, agreeChromStrand p.2 = false := by
  constructor
  · rintro ⟨k, hk⟩
    cases hb : buildTranscripts t.rows with
    | ok ts =>
      rw [generate_of_build_ok t ts hs hb] at hk
      exact Except.noConfusion hk
    | error e =>
      rw [generate_of_build_error t e hs hb] at hk
      rw [buildTranscripts] at hb
      obtain ⟨p, hp, hag, -⟩ := build_error_shape _ e hb
      exact ⟨p, hp, hag⟩
  · rintro ⟨p, hp, hag⟩
    cases hb : buildTranscripts t.rows with
    | ok ts =>
      rw [buildTranscripts] at hb
      have := build_ok_all _ ts hb p hp
      rw [hag] at this
      exact absurd this Bool.false_ne_true
    | error e =>
      have hgen := generate_of_build_error t e hs hb
      rw [buildTranscripts] at hb
      obtain ⟨q, hq, -, hE⟩ := build_error_shape _ e hb
      exact ⟨q.1, by rw [hgen, hE]⟩

/-- Witness for C5 at a table whose only transcript partition mixes two
strands. -/
theorem C5_malformed_surfaced_witness :
    (∃ k, generate_splice_sites badStrandTable =
        Except.error (PipelineError.MalformedGroupError k)) ↔
      ∃ p ∈ groupByTranscript badStrandTable.rows,
        agreeChromStrand p.2 = false :=
  C5_malformed_surfaced badStrandTable rfl

/-- C6: the pipeline surfaces a SchemaError exactly when the input table
misses a required column or holds a row with `start >= end`; on every
well-formed input no SchemaError is raised. -/
theorem C6_schema_error_iff (t : Table) :
    ((¬ ∀ c ∈ requiredColumns, c ∈ t.columns) ∨
        ∃ r ∈ t.rows, r.End ≤ r.Start) ↔
      ∃ d, generate_splice_sites t =
        Except.error (PipelineError.SchemaError d) := by
  constructor
  · intro h
    obtain ⟨d, hd⟩ := (checkSchema_error_iff t).mpr h
    exact ⟨d, generate_of_checkSchema_error t _ hd⟩
  · rintro ⟨d, hd⟩
    apply (checkSchema_error_iff t).mp
    rcases checkSchema_cases t with hok | ⟨d2, herr⟩
    · exfalso
      cases hb : buildTranscripts t.rows with
      | ok ts =>
        rw [generate_of_build_ok t ts hok hb] at hd
        exact Except.noConfusion hd
      | error e =>
        rw [generate_of_build_error t e hok hb] at hd
        injection hd with he
        rw [buildTranscripts] at hb
        obtain ⟨p, -, -, hE⟩ := build_error_shape _ e hb
        rw [he] at hE
        exact PipelineError.noConfusion hE
    · exact ⟨d2, herr⟩

/-- C7: a schema-clean input with zero transcripts, or whose transcript
partitions all hold fewer than two exon rows, succeeds and returns two
empty tables of the start-sites and end-sites row types. -/
theorem C7_empty_inputs_ok (t : Table)
    (hs : checkSchema t = Except.ok ())
    (hshort : ∀ p ∈ groupByTranscript t.rows, (exonRows p.2).length ≤ 1) :
    generate_splice_sites t = Except.ok ([], []) := by
  have hall : ∀ p ∈ groupByTranscript t.rows, agreeChromStrand p.2 = true :=
    fun p hp => agree_of_short p.2 (hshort p hp)
  have hb : buildTranscripts t.rows = Except.ok
      ((groupByTranscript t.rows).map (fun p => (p.1, transcriptOfGroup p.2))) := by
    rw [buildTranscripts]
    exact build_ok_of_all _ hall
  rw [generate_of_build_ok t _ hs hb]
  have hj : junctionsOf ((groupByTranscript t.rows).map
      (fun p => (p.1, transcriptOfGroup p.2))) = [] := by
    apply junctionsOf_eq_nil
    intro kt hkt
    rcases List.mem_map.mp hkt with ⟨p, hp, rfl⟩
    apply introns_nil_of_short
    rw [transcriptOfGroup_exons_length]
    exact hshort p hp
  rw [spliceTable, hj]
  rfl

/-- Witness for C7 at a table holding one single-exon transcript. -/
theorem C7_empty_inputs_ok_witness :
    generate_splice_sites singleExonTable = Except.ok ([], []) :=
  C7_empty_inputs_ok singleExonTable rfl (by decide)

/-- C4: the start-sites and end-sites outputs are the column projections of
the one deduplicated, sorted junction table, with no secondary
deduplication: each view has exactly one row per table row, at the same
position. -/
theorem C4_views_from_one_table (t : Table) (ts : List (String × Transcript))
    (starts : List StartSiteRow) (ends : List EndSiteRow)
    (hb : buildTranscripts t.rows = Except.ok ts)
    (hd : generate_splice_sites t = Except.ok (starts, ends)) :
    starts = (spliceTable ts).map projStart ∧
    ends = (spliceTable ts).map projEnd ∧
    starts.length = (spliceTable ts).length ∧
    ends.length = (spliceTable ts).length ∧
    (∀ i : Nat, starts[i]? = ((spliceTable ts)[i]?).map projStart) ∧
    (∀ i : Nat, ends[i]? = ((spliceTable ts)[i]?).map projEnd) := by
  obtain ⟨ts2, hb2, h1, h2⟩ := generate_ok_shape t starts ends hd
  rw [hb] at hb2
  injection hb2 with hts
  subst hts
  subst h1
  subst h2
  refine ⟨rfl, rfl, List.length_map _ _, List.length_map _ _, ?_, ?_⟩
  · intro i
    rw [List.getElem?_map]
  · intro i
    rw [List.getElem?_map]

/-- Witness for C4 at a table with two introns sharing
`(Chromosome, Start, Strand)` but differing in `End`: both survive in each
view, so each view has as many rows as the junction table. -/
theorem C4_views_from_one_table_witness :
    ([{ Chromosome := "chr1", Start := 10, Strand := "+" },
      { Chromosome := "chr1", Start := 10, Strand := "+" }] :
        List StartSiteRow).length =
      (spliceTable dupStartTranscripts).length ∧
    ([{ Chromosome := "chr1", End := 20, Strand := "+" },
      { Chromosome := "chr1", End := 25, Strand := "+" }] :
        List EndSiteRow).length =
      (spliceTable dupStartTranscripts).length :=
  ⟨(C4_views_from_one_table dupStartTable dupStartTranscripts
      [{ Chromosome := "chr1", Start := 10, Strand := "+" },
        { Chromosome := "chr1", Start := 10, Strand := "+" }]
      [{ Chromosome := "chr1", End := 20, Strand := "+" },
        { Chromosome := "chr1", End := 25, Strand := "+" }]
      rfl rfl).2.2.1,
    (C4_views_from_one_table dupStartTable dupStartTranscripts
      [{ Chromosome := "chr1", Start := 10, Strand := "+" },
        { Chromosome := "chr1", Start := 10, Strand := "+" }]
      [{ Chromosome := "chr1", End := 20, Strand := "+" },
        { Chromosome := "chr1", End := 25, Strand := "+" }]
      rfl rfl).2.2.2.1⟩

/-- C10: the two output views always have the same number of rows, and at
every row index the chromosome and the strand of the two views agree,
because both rows project the same junction table row. -/
theorem C10_row_alignment (t : Table) (starts : List StartSiteRow)
    (ends : List EndSiteRow)
    (hd : generate_splice_sites t = Except.ok (starts, ends)) :
    starts.length = ends.length ∧
    ∀ (i : Nat) (h1 : i < starts.length) (h2 : i < ends.length),
      (starts.get ⟨i, h1⟩).Chromosome = (ends.get ⟨i, h2⟩).Chromosome ∧
        (starts.get ⟨i, h1⟩).Strand = (ends.get ⟨i, h2⟩).Strand := by
  obtain ⟨ts, -, h1, h2⟩ := generate_ok_shape t starts ends hd
  subst h1
  subst h2
  refine ⟨by rw [List.length_map, List.length_map], ?_⟩
  intro i hi1 hi2
  rw [List.get_eq_getElem, List.get_eq_getElem, List.getElem_map,
    List.getElem_map]
  exact ⟨rfl, rfl⟩

/-- Witness for C10 at the repository fixture table. -/
theorem C10_row_alignment_witness :
    ([{ Chromosome := "chr1", Start := 14148, Strand := "+" }] :
        List StartSiteRow).length =
      ([{ Chromosome := "chr1", End := 16195, Strand := "+" }] :
        List EndSiteRow).length :=
  (C10_row_alignment fixtureTable
    [{ Chromosome := "chr1", Start := 14148, Strand := "+" }]
    [{ Chromosome := "chr1", End := 16195, Strand := "+" }] rfl).1
